import Mathlib

/-!
# Verification of the bike-sharing analytics pipeline

Shallow embedding of the reproducible analytics pipeline
(`src/pipeline.py`, `src/utils.py`, `app.py`) and proofs of the
specification claims about it.

Conventions of the embedding:
* pandas `DataFrame`s become `Table` (a header list plus rows of `Cell`s),
  or specialised record lists where only a few columns matter;
* floating-point numbers become exact rationals (`ℚ`);
* pandas' stable sorts (`sort_values` on several keys uses a stable
  lexicographic sort) are modelled by the stable insertion sort `sSort`;
* filesystem / network effects of the acquisition step become explicit
  state passing over `AcqWorld`, and Python exceptions become `Except`.
-/

namespace BikeSpec

/-! ## Stable sorting

`sSort le` is a stable sort: an element inserted by `sIns` goes in front of
the first list element `y` with `le x y = true`, so elements that tie under
`le` keep their original relative order.  This models both pandas
`sort_values` (stable lexicographic sort for several keys) and the sorted
key order of `groupby`. -/

def sIns {α : Type*} (le : α → α → Bool) (x : α) : List α → List α
  | [] => [x]
  | y :: l => if le x y then x :: y :: l else y :: sIns le x l

def sSort {α : Type*} (le : α → α → Bool) : List α → List α
  | [] => []
  | x :: l => sIns le x (sSort le l)

/-! ## Cells and tables (loader/cleaner, `pipeline.py` lines 82-98) -/

inductive Cell where
  | num (q : ℚ)
  | str (s : String)
  | missing
deriving DecidableEq

def Cell.isMissing : Cell → Bool
  | .missing => true
  | _ => false

structure Table where
  headers : List String
  rows : List (List Cell)
deriving DecidableEq

/-- Position of a column label, `df.columns.get_loc(name)`. -/
def colIndex (t : Table) (name : String) : Option Nat :=
  t.headers.findIdx? (· == name)

def getCell (row : List Cell) (i : Nat) : Cell :=
  row.getD i .missing

/-- Model of `df[col] = df[col].map(f)`: transform one existing column in place. -/
def mapColAt (t : Table) (i : Nat) (f : Cell → Cell) : Table :=
  { t with rows := t.rows.map fun row => row.set i (f (getCell row i)) }

/-- Model of `df[name] = <expression computed per row>`: pandas assignment overwrites
the column when the label exists and appends a new column otherwise. -/
def setCol (t : Table) (name : String) (g : List Cell → Cell) : Table :=
  match colIndex t name with
  | some i => { t with rows := t.rows.map fun row => row.set i (g row) }
  | none => { headers := t.headers ++ [name], rows := t.rows.map fun row => row ++ [g row] }

/-- Model of `df.dropna(subset=[col])` for the column at index `i`. -/
def dropMissingAt (t : Table) (i : Nat) : Table :=
  { t with rows := t.rows.filter fun row => !(getCell row i).isMissing }

/-- Model of `df["weekday"].isin([0, 6]).astype(int)` applied to one cell
(`pipeline.py` line 90); a missing weekday is not in `{0, 6}`. -/
def isWeekendVal : Cell → ℚ
  | .num q => if q = 0 ∨ q = 6 then 1 else 0
  | _ => 0

/-- Statement at `pipeline.py` lines 85-86: parse `dteday` when that column is present.
`parseDate` models the cellwise action of
`pd.to_datetime(..., errors="coerce")` (an external library function). -/
def cleanDate (parseDate : Cell → Cell) (t : Table) : Table :=
  match colIndex t "dteday" with
  | some i => mapColAt t i parseDate
  | none => t

/-- Statement at `pipeline.py` lines 89-90: derive `is_weekend` from `weekday` when that
column is present. -/
def cleanWeekend (t : Table) : Table :=
  match colIndex t "weekday" with
  | some i => setCol t "is_weekend" fun row => .num (isWeekendVal (getCell row i))
  | none => t

/-- Statement at `pipeline.py` lines 93-94: drop rows with a missing `cnt` when that
column is present. -/
def cleanTarget (t : Table) : Table :=
  match colIndex t "cnt" with
  | some i => dropMissingAt t i
  | none => t

/-- Loader/cleaner, `pipeline.py` lines 85-94: the three cleaning
statements in program order.  No operation touches the header names
themselves. -/
def clean (parseDate : Cell → Cell) (t : Table) : Table :=
  cleanTarget (cleanWeekend (cleanDate parseDate t))

/-! ## Train/test split of the modeling engine (`pipeline.py` lines 228-245) -/

/-- The set `drop_cols` of `pipeline.py` line 229: `cnt`, `casual`, `registered`, `instant`, `dteday`. -/
def modelDropCols : List String := ["cnt", "casual", "registered", "instant", "dteday"]

/-- Condition `"dteday" in df.columns and df["dteday"].notna().any()` (line 238). -/
def hasUsableDate (t : Table) : Bool :=
  match colIndex t "dteday" with
  | some i => t.rows.any fun row => !(getCell row i).isMissing
  | none => false

/-- The index `split = int(len(df) * 0.8)` (line 239) in exact arithmetic. -/
def splitIndex (n : Nat) : Nat := n * 8 / 10

/-- Lines 238-245: time-aware split when a usable date axis exists
(`X.iloc[:split]` / `X.iloc[split:]`).  The `else` branch calls
`sklearn.model_selection.train_test_split` (external, shuffled with a fixed
seed) and is not modelled; `none` marks that branch. -/
def timeSplit (t : Table) : Option (List (List Cell) × List (List Cell)) :=
  if hasUsableDate t then
    some (t.rows.take (splitIndex t.rows.length), t.rows.drop (splitIndex t.rows.length))
  else none

/-! ## Day-type classification (`pipeline.py` lines 156-159) -/

/-- Day type of one record.  `none` means the column is absent from the
table.  Line 157: `np.where(df.get("is_weekend", 0) == 1, "weekend",
"workingday")` — an absent `is_weekend` defaults to `0`.  Lines 158-159
overwrite with `"non-workingday"` where `workingday == 0` and
`is_weekend == 0`, but only when both columns exist. -/
def daytypeRow (workingday isWeekend : Option Int) : String :=
  let base := if isWeekend.getD 0 = 1 then "weekend" else "workingday"
  match workingday, isWeekend with
  | some w, some s => if w = 0 ∧ s = 0 then "non-workingday" else base
  | _, _ => base

/-! ## Peak-hours aggregation (`pipeline.py` lines 156-168) -/

/-- One record of an hour-level table, restricted to the columns the
peak-hours computation reads. -/
structure Row where
  workingday : Option Int
  isWeekend : Option Int
  hr : Int
  cnt : ℚ
deriving DecidableEq

/-- One row of the aggregated `peak` frame: `_daytype`, `hr`, `avg_cnt`. -/
structure PRow where
  cat : String
  hr : Int
  avg : ℚ
deriving DecidableEq

def Row.cat (r : Row) : String := daytypeRow r.workingday r.isWeekend

def keyOf (r : Row) : String × Int := (r.cat, r.hr)

/-- Ascending order on `groupby` keys `(_daytype, hr)`. -/
def keyLe (a b : String × Int) : Bool :=
  decide ((a.1 = b.1 ∧ a.2 ≤ b.2) ∨ a.1 < b.1)

def groupRows (rows : List Row) (k : String × Int) : List Row :=
  rows.filter fun r => decide (keyOf r = k)

def groupMean (rows : List Row) (k : String × Int) : ℚ :=
  (groupRows rows k).foldl (fun acc r => acc + r.cnt) 0 / ((groupRows rows k).length : ℚ)

/-- Model of `df.groupby(["_daytype", "hr"], as_index=False)["cnt"].mean()`
(lines 161-164): one output row per distinct key, keys sorted ascending,
carrying the mean of `cnt` over the key's group. -/
def grouped (rows : List Row) : List PRow :=
  (sSort keyLe ((rows.map keyOf).dedup)).map fun k => ⟨k.1, k.2, groupMean rows k⟩

/-- Comparator of `sort_values(["_daytype", "avg_cnt"],
ascending=[True, False])` (line 165): `_daytype` ascending, then `avg_cnt`
descending. -/
def peakLe (a b : PRow) : Bool :=
  decide ((a.cat = b.cat ∧ b.avg ≤ a.avg) ∨ a.cat < b.cat)

def peak (rows : List Row) : List PRow := sSort peakLe (grouped rows)

/-- Model of `peak.groupby("_daytype", as_index=False).head(n)`: keep a row iff
fewer than `n` rows of its group appeared before it; `seen` records the
group keys already passed. -/
def headPer (n : Nat) (seen : List String) : List PRow → List PRow
  | [] => []
  | r :: rs =>
    if seen.count r.cat < n then r :: headPer n (r.cat :: seen) rs
    else headPer n (r.cat :: seen) rs

/-- The peak-hours table `peak_top` (line 167). -/
def peakTop (rows : List Row) : List PRow := headPer 5 [] (peak rows)

/-- Descending order on the mean target, used to state the per-category
specification of the peak-hours table. -/
def meanDescLe (a b : PRow) : Bool := decide (b.avg ≤ a.avg)

/-- The hour-mean rows of one day-type category, in original group order
(the order the `groupby` result lists them). -/
def catMeans (rows : List Row) (d : String) : List PRow :=
  (grouped rows).filter fun r => r.cat == d

/-! ## Data acquisition (`src/utils.py`) -/

/-- Spec error taxonomy: `NetworkError` models the `requests` exceptions
raised by `download_file` (unreachable remote, or `raise_for_status` on a
non-success status); `CorruptArchiveError` models the `FileNotFoundError`
raised by `ensure_ucibike_data` when no archive entry matches. -/
inductive AcqError where
  | network
  | corruptArchive
deriving DecidableEq

/-- The world the acquisition function acts on: the set of files on disk,
whether the remote is reachable with a success status, and the entry names
of the archive (the cached copy and the remote copy have the same
contents). -/
structure AcqWorld where
  files : List String
  netOk : Bool
  zipEntries : List String
deriving DecidableEq

/-- Result of a successful acquisition call: the final world, the returned
path, and the I/O performed (number of downloads and archive
extractions). -/
structure AcqResult where
  world : AcqWorld
  path : String
  downloads : Nat
  extracts : Nat
deriving DecidableEq

def zipPath (rawDir : String) : String := rawDir ++ "/bike_sharing_dataset.zip"

/-- The assignment `target_name = "day.csv" if level == "day" else "hour.csv"`. -/
def targetName (level : String) : String := if level = "day" then "day.csv" else "hour.csv"

def targetPath (rawDir level : String) : String := rawDir ++ "/" ++ targetName level

/-- Archive-member match of `utils.py` line 46:
`n.endswith(f"/{target_name}") or n.endswith(target_name)`. -/
def entryMatches (level : String) (n : String) : Bool :=
  n.endsWith ("/" ++ targetName level) || n.endsWith (targetName level)

/-- Second block of `ensure_ucibike_data` (`utils.py` lines 40-57): with
the archive on disk (`w1`, after `dl` downloads), extract the first
matching entry when the target CSV is missing — raising the
corrupt-archive error when no entry matches — and return the
deterministic target path. -/
def acqExtract (w1 : AcqWorld) (dl : Nat) (rawDir level : String) : Except AcqError AcqResult :=
  if targetPath rawDir level ∈ w1.files then .ok ⟨w1, targetPath rawDir level, dl, 0⟩
  else if (w1.zipEntries.filter (entryMatches level)).isEmpty then .error .corruptArchive
  else .ok ⟨{ w1 with files := targetPath rawDir level :: w1.files }, targetPath rawDir level, dl, 1⟩

/-- Model of `ensure_ucibike_data(raw_dir, level)` (`utils.py` lines 29-57).
First block (lines 33-38): download the archive if it is missing
(`download_file`, which raises a network error when the remote is
unreachable or returns a non-success status), then run the extraction
block. -/
def ensure_ucibike_data (w : AcqWorld) (rawDir level : String) : Except AcqError AcqResult :=
  if zipPath rawDir ∈ w.files then acqExtract w 0 rawDir level
  else if w.netOk then acqExtract { w with files := zipPath rawDir :: w.files } 1 rawDir level
  else .error .network

/-! ## Model comparison table (`pipeline.py` lines 287-299) -/

structure ModelResult where
  model : String
  rmse : ℚ
  r2 : ℚ
deriving DecidableEq

/-- The `results` list built by the loop at lines 287-297: one record per
trained model, Ridge first, RandomForest second, with their test metrics. -/
def comparisonRows (ridgeRmse ridgeR2 rfRmse rfR2 : ℚ) : List ModelResult :=
  [⟨"Ridge", ridgeRmse, ridgeR2⟩, ⟨"RandomForest", rfRmse, rfR2⟩]

def rmseLe (a b : ModelResult) : Bool := decide (a.rmse ≤ b.rmse)

/-- Model of `pd.DataFrame(results).sort_values("rmse")` (line 299). -/
def modelComparison (ridgeRmse ridgeR2 rfRmse rfR2 : ℚ) : List ModelResult :=
  sSort rmseLe (comparisonRows ridgeRmse ridgeR2 rfRmse rfR2)

/-! ## Artifact paths: pipeline writes vs. dashboard reads -/

/-- Every output path a successful pipeline run writes (the `generated`
checklist of `pipeline.py` lines 330-344, which names every write site of
the run). -/
def pipelineOutputFiles (level : String) : List String :=
  ["outputs/env.json",
   "outputs/metrics.txt",
   "outputs/model_comparison.csv",
   "outputs/summary.csv",
   "outputs/peak_hours.csv",
   "outputs/peak_hours_summary.txt",
   "outputs/fig_heatmap_month_hour.png",
   "outputs/fig_timeseries.png",
   "outputs/fig_temp_vs_cnt.png",
   "outputs/fig_avg_by_hour.png",
   "outputs/fig_avg_by_hour_daytype.png",
   "reports/REPORT.md",
   "data/processed/" ++ level ++ "_processed.csv"]

/-- The artifact paths the dashboard reads for display (`app.py` lines
33-72): peak-hours table, summary table, metrics text, model-comparison
table and the five figures, all prefixed with the selected level. -/
def dashboardArtifactPaths (level : String) : List String :=
  ["outputs/" ++ level ++ "_peak_hours.csv",
   "outputs/" ++ level ++ "_summary.csv",
   "outputs/" ++ level ++ "_metrics.txt",
   "outputs/" ++ level ++ "_model_comparison.csv",
   "outputs/" ++ level ++ "_fig_heatmap_month_hour.png",
   "outputs/" ++ level ++ "_fig_avg_by_hour_daytype.png",
   "outputs/" ++ level ++ "_fig_timeseries.png",
   "outputs/" ++ level ++ "_fig_avg_by_hour.png",
   "outputs/" ++ level ++ "_fig_temp_vs_cnt.png"]

/-! ## Column-level effect of the peak-hours branch (`pipeline.py`
lines 96-98, 156-189, 229-230) -/

/-- Header effect of a pandas column assignment `df[name] = ...`. -/
def setColH (hs : List String) (name : String) : List String :=
  if name ∈ hs then hs else hs ++ [name]

/-- Header effect of the peak-hours branch: when `hr` is present the
branch assigns `df["_daytype"]` (line 157) and finally drops it again
(line 189); when `hr` is absent the branch never runs. -/
def afterPeakHeaders (hs : List String) : List String :=
  if "hr" ∈ hs then (setColH hs "_daytype").erase "_daytype" else hs

/-- Feature columns of the modeling engine (lines 229-230):
every column except the target/leakage/id columns. -/
def featureHeaders (hs : List String) : List String :=
  hs.filter fun c => !(modelDropCols.contains c)

/-! ## The two Ridge preprocessing paths (`pipeline.py` lines 247-299)

The metrics report fits `Pipeline([("pre", pre), ("model", Ridge(alpha=1.0,
random_state=42))])` where `pre` one-hot encodes the integer columns with
a sparse output, and the comparison table fits the same pipeline with
`sparse_output=False`.  Both are embedded in exact arithmetic over ℚ; the
sparse encoding is represented by its list of active column indices, the
dense one by its 0/1 vector, and everything downstream consumes the
mathematical design matrix. -/

def qsum (l : List ℚ) : ℚ := l.foldl (· + ·) 0

def dotQ (a b : List ℚ) : ℚ := qsum ((a.zip b).map fun p => p.1 * p.2)

def meanQ (l : List ℚ) : ℚ := qsum l / (l.length : ℚ)

def intLe (a b : Int) : Bool := decide (a ≤ b)

/-- sklearn `OneHotEncoder` category list for one column: the sorted
distinct training values. -/
def categoriesOf (col : List Int) : List Int := sSort intLe col.dedup

/-- Dense one-hot encoding of one value (`sparse_output=False`); an
unknown category (`handle_unknown="ignore"`) encodes as all zeros. -/
def denseEnc : List Int → Int → List ℚ
  | [], _ => []
  | c :: cs, v => (if v = c then (1 : ℚ) else 0) :: denseEnc cs v

/-- Sparse one-hot encoding of one value: the list of active column
indices (the stored content of the sparse matrix); an unknown category
yields no active index. -/
def sparseIdx : List Int → Int → List Nat
  | [], _ => []
  | c :: cs, v => (if v = c then [0] else []) ++ (sparseIdx cs v).map (· + 1)

/-- The dense row of length `len` that a sparse index list denotes. -/
def toDense (len : Nat) (idxs : List Nat) : List ℚ :=
  (List.range len).map fun i => if i ∈ idxs then (1 : ℚ) else 0

/-- The data both Ridge fits consume: the categorical and numeric feature
columns of the train and test rows (split at line 239), the target values,
and the per-column divisor of `StandardScaler` (the square root of the
training variance, an external irrational quantity, passed as data —
identical for both preprocessing paths, which share `cat_cols`,
`num_cols`, the split and all hyperparameters). -/
structure MLSplit where
  nCat : Nat
  nNum : Nat
  catTrain : List (List Int)
  numTrain : List (List ℚ)
  yTrain : List ℚ
  catTest : List (List Int)
  numTest : List (List ℚ)
  yTest : List ℚ
  scaleDiv : List ℚ

def colJInt (rows : List (List Int)) (j : Nat) : List Int := rows.map (·.getD j 0)

def colJQ (rows : List (List ℚ)) (j : Nat) : List ℚ := rows.map (·.getD j 0)

/-- Per-column category lists, fitted on the training rows. -/
def catsList (s : MLSplit) : List (List Int) :=
  (List.range s.nCat).map fun j => categoriesOf (colJInt s.catTrain j)

/-- The `StandardScaler` column means, fitted on the training rows. -/
def numMeans (s : MLSplit) : List ℚ :=
  (List.range s.nNum).map fun j => meanQ (colJQ s.numTrain j)

/-- Model of `StandardScaler.transform` of one row of numeric values. -/
def scaleRow (s : MLSplit) (nvals : List ℚ) : List ℚ :=
  (List.range s.nNum).map fun j =>
    (nvals.getD j 0 - (numMeans s).getD j 0) / s.scaleDiv.getD j 1

/-- One-hot block of one row under the dense encoder. -/
def denseCatRow (s : MLSplit) (vals : List Int) : List ℚ :=
  ((catsList s).zip vals).flatMap fun p => denseEnc p.1 p.2

/-- One-hot block of one row under the sparse encoder, as the dense row
its sparse representation denotes. -/
def sparseCatRow (s : MLSplit) (vals : List Int) : List ℚ :=
  ((catsList s).zip vals).flatMap fun p => toDense p.1.length (sparseIdx p.1 p.2)

def denseFeatures (s : MLSplit) (cvals : List Int) (nvals : List ℚ) : List ℚ :=
  denseCatRow s cvals ++ scaleRow s nvals

def sparseFeatures (s : MLSplit) (cvals : List Int) (nvals : List ℚ) : List ℚ :=
  sparseCatRow s cvals ++ scaleRow s nvals

def designDenseTrain (s : MLSplit) : List (List ℚ) :=
  (s.catTrain.zip s.numTrain).map fun p => denseFeatures s p.1 p.2

def designDenseTest (s : MLSplit) : List (List ℚ) :=
  (s.catTest.zip s.numTest).map fun p => denseFeatures s p.1 p.2

def designSparseTrain (s : MLSplit) : List (List ℚ) :=
  (s.catTrain.zip s.numTrain).map fun p => sparseFeatures s p.1 p.2

def designSparseTest (s : MLSplit) : List (List ℚ) :=
  (s.catTest.zip s.numTest).map fun p => sparseFeatures s p.1 p.2

/-! ### Exact ridge regression -/

/-- First row with a nonzero leading coefficient, and the remaining rows. -/
def findPivot : List (List ℚ) → Option (List ℚ × List (List ℚ))
  | [] => none
  | r :: rs =>
    if r.headD 0 ≠ 0 then some (r, rs)
    else match findPivot rs with
      | some (p, rest) => some (p, r :: rest)
      | none => none

def elimRow (p r : List ℚ) : List ℚ :=
  let f := r.headD 0 / p.headD 0
  (List.zipWith (fun a b => a - f * b) r p).drop 1

/-- Forward Gaussian elimination on an augmented matrix; the fuel is the
number of variables. -/
def gaussElim : Nat → List (List ℚ) → Option (List (List ℚ))
  | 0, _ => some []
  | n + 1, rows =>
    match findPivot rows with
    | none => none
    | some (p, rest) => (gaussElim n (rest.map (elimRow p))).map (p :: ·)

def backSolve : List (List ℚ) → List ℚ
  | [] => []
  | p :: tri =>
    let xs := backSolve tri
    (p.getLastD 0 - dotQ ((p.drop 1).dropLast) xs) / p.headD 0 :: xs

/-- Solve the square linear system `a · x = b` by elimination. -/
def solveLin (a : List (List ℚ)) (b : List ℚ) : Option (List ℚ) :=
  (gaussElim a.length ((a.zip b).map fun p => p.1 ++ [p.2])).map backSolve

def gramAt (x1 : List (List ℚ)) (i j : Nat) : ℚ :=
  qsum (x1.map fun row => row.getD i 0 * row.getD j 0)

/-- Normal-equations matrix of ridge regression with an unpenalized
intercept: `X₁ᵀX₁ + α· diag(1, …, 1, 0)` with `α = 1.0`
(`Ridge(alpha=1.0)`). -/
def ridgeMatrix (x1 : List (List ℚ)) (n : Nat) : List (List ℚ) :=
  (List.range n).map fun i =>
    (List.range n).map fun j =>
      gramAt x1 i j + if i = j ∧ i + 1 ≠ n then 1 else 0

def ridgeRhs (x1 : List (List ℚ)) (y : List ℚ) (n : Nat) : List ℚ :=
  (List.range n).map fun i => qsum ((x1.zip y).map fun p => p.1.getD i 0 * p.2)

/-- Model of `Ridge(alpha=1.0)` (default `fit_intercept=True`) in exact
arithmetic: the coefficient vector (intercept last) solving the
regularized normal equations of the intercept-augmented design matrix. -/
def ridgeFit (x : List (List ℚ)) (y : List ℚ) : Option (List ℚ) :=
  let x1 := x.map (· ++ [1])
  let n := (x1.headD []).length
  solveLin (ridgeMatrix x1 n) (ridgeRhs x1 y n)

def predictRow (w : Option (List ℚ)) (xrow : List ℚ) : ℚ :=
  match w with
  | none => 0
  | some ws => dotQ ws (xrow ++ [1])

/-- Model of `mean_squared_error` on the test split. -/
def mseOf (preds ys : List ℚ) : ℚ :=
  qsum ((preds.zip ys).map fun p => (p.1 - p.2) * (p.1 - p.2)) / (ys.length : ℚ)

/-- Model of `r2_score` on the test split. -/
def r2Of (preds ys : List ℚ) : ℚ :=
  qsum ((preds.zip ys).map fun p => (p.2 - p.1) * (p.2 - p.1)) /
    qsum (ys.map fun v => (v - meanQ ys) * (v - meanQ ys)) |> (1 - ·)

/-- Test MSE and R² of the metrics-report Ridge fit (sparse one-hot
preprocessing, `pipeline.py` lines 247-259). -/
def metricsSparse (s : MLSplit) : ℚ × ℚ :=
  let w := ridgeFit (designSparseTrain s) s.yTrain
  let preds := (designSparseTest s).map (predictRow w)
  (mseOf preds s.yTest, r2Of preds s.yTest)

/-- Test MSE and R² of the comparison-table Ridge fit (dense one-hot
preprocessing, `pipeline.py` lines 271-297). -/
def metricsDense (s : MLSplit) : ℚ × ℚ :=
  let w := ridgeFit (designDenseTrain s) s.yTrain
  let preds := (designDenseTest s).map (predictRow w)
  (mseOf preds s.yTest, r2Of preds s.yTest)

/-! ## Lemmas about the stable insertion sort -/

theorem mem_sIns {α : Type*} {le : α → α → Bool} {x a : α} (l : List α) :
    a ∈ sIns le x l ↔ a = x ∨ a ∈ l := by
  induction l with
  | nil => simp [sIns]
  | cons y t ih =>
    simp only [sIns]
    split
    · simp [List.mem_cons]
    · simp only [List.mem_cons, ih]
      tauto

theorem sIns_perm {α : Type*} (le : α → α → Bool) (x : α) (l : List α) :
    (sIns le x l).Perm (x :: l) := by
  induction l with
  | nil => exact List.Perm.refl _
  | cons y t ih =>
    simp only [sIns]
    split
    · exact List.Perm.refl _
    · exact (ih.cons y).trans (List.Perm.swap x y t)

theorem sSort_perm {α : Type*} (le : α → α → Bool) (l : List α) :
    (sSort le l).Perm l := by
  induction l with
  | nil => exact List.Perm.refl _
  | cons x t ih => exact (sIns_perm le x (sSort le t)).trans (ih.cons x)

theorem mem_sSort {α : Type*} {le : α → α → Bool} {a : α} (l : List α) :
    a ∈ sSort le l ↔ a ∈ l :=
  (sSort_perm le l).mem_iff

theorem sIns_of_le_head {α : Type*} {le : α → α → Bool} {x : α} {l : List α}
    (h : ∀ z ∈ l, le x z = true) : sIns le x l = x :: l := by
  cases l with
  | nil => rfl
  | cons y t => simp [sIns, h y (List.mem_cons_self y t)]

theorem pairwise_sIns {α : Type*} {le : α → α → Bool}
    (htr : ∀ a b c, le a b = true → le b c = true → le a c = true)
    (hto : ∀ a b, le a b = true ∨ le b a = true)
    {x : α} {l : List α} (hp : l.Pairwise (fun a b => le a b = true)) :
    (sIns le x l).Pairwise (fun a b => le a b = true) := by
  induction l with
  | nil => simp [sIns]
  | cons y t ih =>
    rw [List.pairwise_cons] at hp
    simp only [sIns]
    split
    · rename_i hxy
      rw [List.pairwise_cons]
      refine ⟨?_, List.pairwise_cons.mpr hp⟩
      intro z hz
      rcases List.mem_cons.mp hz with hz | hz
      · exact hz ▸ hxy
      · exact htr x y z hxy (hp.1 z hz)
    · rename_i hxy
      have hyx : le y x = true := (hto x y).resolve_left hxy
      rw [List.pairwise_cons]
      refine ⟨?_, ih hp.2⟩
      intro z hz
      rcases (mem_sIns _).mp hz with hz | hz
      · exact hz ▸ hyx
      · exact hp.1 z hz

theorem pairwise_sSort {α : Type*} {le : α → α → Bool}
    (htr : ∀ a b c, le a b = true → le b c = true → le a c = true)
    (hto : ∀ a b, le a b = true ∨ le b a = true) (l : List α) :
    (sSort le l).Pairwise (fun a b => le a b = true) := by
  induction l with
  | nil => simp [sSort]
  | cons x t ih => exact pairwise_sIns htr hto ih

theorem sIns_congr {α : Type*} {le₁ le₂ : α → α → Bool} {x : α} {l : List α}
    (h : ∀ z ∈ l, le₁ x z = le₂ x z) : sIns le₁ x l = sIns le₂ x l := by
  induction l with
  | nil => rfl
  | cons y t ih =>
    simp only [sIns, h y (List.mem_cons_self y t)]
    split
    · rfl
    · rw [ih fun z hz => h z (List.mem_cons_of_mem y hz)]

theorem sSort_congr {α : Type*} {le₁ le₂ : α → α → Bool} {l : List α}
    (h : ∀ a ∈ l, ∀ b ∈ l, le₁ a b = le₂ a b) : sSort le₁ l = sSort le₂ l := by
  induction l with
  | nil => rfl
  | cons x t ih =>
    simp only [sSort]
    rw [ih fun a ha b hb =>
      h a (List.mem_cons_of_mem x ha) b (List.mem_cons_of_mem x hb)]
    exact sIns_congr fun z hz =>
      h x (List.mem_cons_self x t) z (List.mem_cons_of_mem x ((mem_sSort t).mp hz))

theorem filter_sIns_neg {α : Type*} {le : α → α → Bool} {q : α → Bool} {x : α}
    (hq : q x = false) (l : List α) :
    (sIns le x l).filter q = l.filter q := by
  induction l with
  | nil => simp [sIns, hq]
  | cons y t ih =>
    simp only [sIns]
    split
    · simp [hq]
    · rw [List.filter_cons, List.filter_cons]
      split <;> rw [ih]

theorem filter_sIns_pos {α : Type*} {le : α → α → Bool} {q : α → Bool} {x : α}
    (htr : ∀ a b c, le a b = true → le b c = true → le a c = true)
    (hto : ∀ a b, le a b = true ∨ le b a = true)
    (hq : q x = true) :
    ∀ {l : List α}, l.Pairwise (fun a b => le a b = true) →
      (sIns le x l).filter q = sIns le x (l.filter q)
  | [], _ => by simp [sIns, hq]
  | y :: t, hp => by
    rw [List.pairwise_cons] at hp
    simp only [sIns]
    split
    · rename_i hxy
      have hhead : ∀ z ∈ (y :: t).filter q, le x z = true := by
        intro z hz
        rcases List.mem_cons.mp (List.mem_of_mem_filter hz) with hz' | hz'
        · exact hz' ▸ hxy
        · exact htr x y z hxy (hp.1 z hz')
      rw [sIns_of_le_head hhead, List.filter_cons_of_pos hq]
    · rename_i hxy
      rw [List.filter_cons]
      split
      · rename_i hqy
        rw [List.filter_cons_of_pos hqy, sIns, if_neg hxy,
          filter_sIns_pos htr hto hq hp.2]
      · rename_i hqy
        rw [List.filter_cons_of_neg (by simpa using hqy),
          filter_sIns_pos htr hto hq hp.2]

theorem filter_sSort {α : Type*} {le : α → α → Bool} {q : α → Bool}
    (htr : ∀ a b c, le a b = true → le b c = true → le a c = true)
    (hto : ∀ a b, le a b = true ∨ le b a = true) (l : List α) :
    (sSort le l).filter q = sSort le (l.filter q) := by
  induction l with
  | nil => rfl
  | cons x t ih =>
    simp only [sSort]
    cases hq : q x with
    | false =>
      rw [filter_sIns_neg hq, ih, List.filter_cons_of_neg (by simp [hq])]
    | true =>
      rw [filter_sIns_pos htr hto hq (pairwise_sSort htr hto t), ih,
        List.filter_cons_of_pos hq, sSort]

theorem sSort_of_ties {α : Type*} {le : α → α → Bool} {l : List α}
    (h : ∀ a ∈ l, ∀ b ∈ l, le a b = true) : sSort le l = l := by
  induction l with
  | nil => rfl
  | cons x t ih =>
    simp only [sSort]
    rw [ih fun a ha b hb =>
      h a (List.mem_cons_of_mem x ha) b (List.mem_cons_of_mem x hb)]
    exact sIns_of_le_head fun z hz =>
      h x (List.mem_cons_self x t) z (List.mem_cons_of_mem x hz)

/-! ## The per-group head of the peak table -/

theorem filter_headPer (n : Nat) (d : String) (l : List PRow) :
    ∀ seen : List String,
      (headPer n seen l).filter (fun p => p.cat == d)
        = (l.filter (fun p => p.cat == d)).take (n - seen.count d) := by
  induction l with
  | nil => intro seen; simp [headPer]
  | cons r rs ih =>
    intro seen
    simp only [headPer]
    by_cases hc : r.cat = d
    · have hcnt : (r.cat :: seen).count d = seen.count d + 1 := by
        rw [List.count_cons]; simp [hc]
      by_cases hlt : seen.count r.cat < n
      · rw [if_pos hlt, List.filter_cons_of_pos (by simp [hc]),
          List.filter_cons_of_pos (by simp [hc]), ih, hcnt]
        have h1 : n - seen.count d = (n - (seen.count d + 1)) + 1 := by
          rw [hc] at hlt; omega
        rw [h1, List.take_succ_cons]
      · have h0 : n - (seen.count d + 1) = 0 := by rw [hc] at hlt; omega
        have h0' : n - seen.count d = 0 := by rw [hc] at hlt; omega
        rw [if_neg hlt, ih, hcnt, h0, List.take_zero, h0', List.take_zero]
    · have hcnt : (r.cat :: seen).count d = seen.count d := by
        rw [List.count_cons]; simp [hc]
      have hf : (r :: rs).filter (fun p => p.cat == d)
          = rs.filter (fun p => p.cat == d) :=
        List.filter_cons_of_neg (by simp [hc])
      by_cases hlt : seen.count r.cat < n
      · rw [if_pos hlt, List.filter_cons_of_neg (by simp [hc]), ih, hcnt, hf]
      · rw [if_neg hlt, ih, hcnt, hf]

/-! ## Comparator facts -/

theorem peakLe_trans (a b c : PRow) (h1 : peakLe a b = true) (h2 : peakLe b c = true) :
    peakLe a c = true := by
  simp only [peakLe, decide_eq_true_eq] at h1 h2 ⊢
  rcases h1 with ⟨hab, hba⟩ | hab <;> rcases h2 with ⟨hbc, hcb⟩ | hbc
  · exact Or.inl ⟨hab.trans hbc, le_trans hcb hba⟩
  · exact Or.inr (hab ▸ hbc)
  · exact Or.inr (hbc ▸ hab)
  · exact Or.inr (lt_trans hab hbc)

theorem peakLe_total (a b : PRow) : peakLe a b = true ∨ peakLe b a = true := by
  simp only [peakLe, decide_eq_true_eq]
  by_cases h : a.cat = b.cat
  · rcases le_total a.avg b.avg with h' | h'
    · exact Or.inr (Or.inl ⟨h.symm, h'⟩)
    · exact Or.inl (Or.inl ⟨h, h'⟩)
  · rcases lt_or_gt_of_ne h with h' | h'
    · exact Or.inl (Or.inr h')
    · exact Or.inr (Or.inr h')

theorem meanDescLe_trans (a b c : PRow) (h1 : meanDescLe a b = true)
    (h2 : meanDescLe b c = true) : meanDescLe a c = true := by
  simp only [meanDescLe, decide_eq_true_eq] at h1 h2 ⊢
  exact le_trans h2 h1

theorem meanDescLe_total (a b : PRow) : meanDescLe a b = true ∨ meanDescLe b a = true := by
  simp only [meanDescLe, decide_eq_true_eq]
  exact (le_total b.avg a.avg)

/-- C2: for every hour-level table, the peak-hours table restricted to a
day-type category `d` is exactly the first 5 rows of the stable descending
sort (by mean target) of that category's hour-means, the sorted category
list is ordered by descending mean, and rows whose means tie exactly keep
their original group order. -/
theorem c2_peak_hours (rows : List Row) (d : String) (c : ℚ) :
    (peakTop rows).filter (fun p => p.cat == d)
      = (sSort meanDescLe (catMeans rows d)).take 5
  ∧ (sSort meanDescLe (catMeans rows d)).Pairwise (fun a b => b.avg ≤ a.avg)
  ∧ (sSort meanDescLe (catMeans rows d)).filter (fun p => decide (p.avg = c))
      = (catMeans rows d).filter (fun p => decide (p.avg = c)) := by
  refine ⟨?_, ?_, ?_⟩
  · rw [peakTop, filter_headPer]
    simp only [List.count_nil, Nat.sub_zero]
    rw [peak, filter_sSort peakLe_trans peakLe_total]
    congr 1
    apply sSort_congr
    intro a ha b hb
    have ha' : a.cat = d := by simpa using (List.mem_filter.mp ha).2
    have hb' : b.cat = d := by simpa using (List.mem_filter.mp hb).2
    simp [peakLe, meanDescLe, ha', hb']
  · exact (pairwise_sSort meanDescLe_trans meanDescLe_total (catMeans rows d)).imp
      (fun h => by simpa [meanDescLe] using h)
  · rw [filter_sSort meanDescLe_trans meanDescLe_total]
    apply sSort_of_ties
    intro a ha b hb
    have ha' : a.avg = c := by simpa using (List.mem_filter.mp ha).2
    have hb' : b.avg = c := by simpa using (List.mem_filter.mp hb).2
    simp [meanDescLe, ha', hb']

/-! ## The time-aware train/test split -/

/-- C1: when a usable date axis exists, the train set is exactly the first
`floor(0.8 * N)` rows in original order and the test set exactly the
remaining `N - floor(0.8 * N)` rows. -/
theorem c1_time_split (t : Table) (h : hasUsableDate t = true) :
    timeSplit t
      = some (t.rows.take (4 * t.rows.length / 5), t.rows.drop (4 * t.rows.length / 5))
  ∧ t.rows.take (4 * t.rows.length / 5) ++ t.rows.drop (4 * t.rows.length / 5) = t.rows
  ∧ (t.rows.take (4 * t.rows.length / 5)).length = 4 * t.rows.length / 5
  ∧ (t.rows.drop (4 * t.rows.length / 5)).length
      = t.rows.length - 4 * t.rows.length / 5 := by
  have hsi : splitIndex t.rows.length = 4 * t.rows.length / 5 := by
    unfold splitIndex; omega
  refine ⟨?_, List.take_append_drop _ _, ?_, ?_⟩
  · rw [timeSplit, if_pos h, hsi]
  · rw [List.length_take]; omega
  · rw [List.length_drop]

/-- Witness for C1 at a one-row table whose date cell is present. -/
theorem c1_time_split_witness :
    hasUsableDate (Table.mk ["dteday"] [[Cell.str "2011-01-01"]]) = true
  ∧ timeSplit (Table.mk ["dteday"] [[Cell.str "2011-01-01"]])
      = some ([], [[Cell.str "2011-01-01"]]) := by
  refine ⟨rfl, ?_⟩
  have h := (c1_time_split (Table.mk ["dteday"] [[Cell.str "2011-01-01"]]) rfl).1
  rw [h]
  rfl

/-! ## Headers through the loader/cleaner -/

theorem colIndex_eq_none_iff (t : Table) (name : String) :
    colIndex t name = none ↔ name ∉ t.headers := by
  rw [colIndex, List.findIdx?_eq_none_iff]
  constructor
  · intro h hm
    simpa using h name hm
  · intro h x hx
    simp only [beq_eq_false_iff_ne, ne_eq]
    intro he
    exact h (he ▸ hx)

theorem headers_setCol (t : Table) (name : String) (g : List Cell → Cell) :
    (setCol t name g).headers
      = if name ∈ t.headers then t.headers else t.headers ++ [name] := by
  rw [setCol]
  cases hi : colIndex t name with
  | none =>
    rw [if_neg ((colIndex_eq_none_iff t name).mp hi)]
  | some i =>
    have : name ∈ t.headers := by
      by_contra hm
      rw [(colIndex_eq_none_iff t name).mpr hm] at hi
      exact Option.noConfusion hi
    rw [if_pos this]

theorem headers_colIndex_congr (t₁ t₂ : Table) (h : t₁.headers = t₂.headers)
    (name : String) : colIndex t₁ name = colIndex t₂ name := by
  rw [colIndex, colIndex, h]

theorem colIndex_eq_some_mem (t : Table) (name : String) {i : Nat}
    (h : colIndex t name = some i) : name ∈ t.headers := by
  by_contra hm
  rw [(colIndex_eq_none_iff t name).mpr hm] at h
  exact Option.noConfusion h

theorem headers_cleanDate (parseDate : Cell → Cell) (t : Table) :
    (cleanDate parseDate t).headers = t.headers := by
  rw [cleanDate]
  cases colIndex t "dteday" <;> rfl

theorem headers_cleanTarget (t : Table) :
    (cleanTarget t).headers = t.headers := by
  rw [cleanTarget]
  cases colIndex t "cnt" <;> rfl

theorem headers_cleanWeekend (t : Table) :
    (cleanWeekend t).headers
      = if "weekday" ∈ t.headers then
          (if "is_weekend" ∈ t.headers then t.headers else t.headers ++ ["is_weekend"])
        else t.headers := by
  rw [cleanWeekend]
  cases h : colIndex t "weekday" with
  | none => rw [if_neg ((colIndex_eq_none_iff t "weekday").mp h)]
  | some j => rw [headers_setCol, if_pos (colIndex_eq_some_mem t "weekday" h)]

/-- Header effect of the whole loader/cleaner: the headers pass through
unchanged except that `is_weekend` is appended when a `weekday` column
exists and no `is_weekend` column does; in particular no whitespace
stripping happens. -/
theorem clean_headers (parseDate : Cell → Cell) (t : Table) :
    (clean parseDate t).headers
      = if "weekday" ∈ t.headers then
          (if "is_weekend" ∈ t.headers then t.headers else t.headers ++ ["is_weekend"])
        else t.headers := by
  rw [clean, headers_cleanTarget, headers_cleanWeekend, headers_cleanDate]

/-- C5 counterexample: the loader/cleaner does not strip whitespace from
column headers.  A raw table whose single header is `" cnt "` (padded with
spaces) keeps that padded header through cleaning, and the padded name is
not its stripped form `"cnt"`. -/
theorem c5_counterexample :
    (clean id (Table.mk [" cnt "] [[Cell.num 5]])).headers = [" cnt "]
  ∧ " cnt " ≠ "cnt" := by
  exact ⟨rfl, by decide⟩

/-- C5 amended: the loader/cleaner leaves column headers exactly as read
(no whitespace stripping); the only header change is appending the derived
`is_weekend` column when a `weekday` column exists and `is_weekend` does
not already exist. -/
theorem c5_headers_unchanged (parseDate : Cell → Cell) (t : Table) :
    (clean parseDate t).headers
      = if "weekday" ∈ t.headers then
          (if "is_weekend" ∈ t.headers then t.headers else t.headers ++ ["is_weekend"])
        else t.headers :=
  clean_headers parseDate t

/-- C6: with both flags present the day type is `weekend` when
`is_weekend = 1`, `non-workingday` when `workingday = 0` and
`is_weekend = 0`, and `workingday` otherwise; with only `is_weekend` the
classification is two-valued; with `is_weekend` absent the flag defaults
to 0 and every row is classified `workingday`. -/
theorem c6_daytype (w s : Int) (wk : Option Int) :
    daytypeRow (some w) (some s)
      = (if s = 1 then "weekend"
         else if w = 0 ∧ s = 0 then "non-workingday" else "workingday")
  ∧ daytypeRow none (some s) = (if s = 1 then "weekend" else "workingday")
  ∧ daytypeRow wk none = "workingday" := by
  refine ⟨?_, ?_, ?_⟩
  · have hred : daytypeRow (some w) (some s)
        = if w = 0 ∧ s = 0 then "non-workingday"
          else if s = 1 then "weekend" else "workingday" := rfl
    rw [hred]
    by_cases h2 : w = 0 ∧ s = 0
    · rw [if_pos h2, if_neg (by omega : ¬s = 1), if_pos h2]
    · rw [if_neg h2]
      by_cases h1 : s = 1
      · rw [if_pos h1, if_pos h1]
      · rw [if_neg h1, if_neg h1, if_neg h2]
  · rfl
  · cases wk <;> rfl

/-! ## The temporary day-type tag column -/

/-- C9: if the raw table has no `_daytype` column, then the cleaned table
(the processed snapshot, written before the tag is ever assigned) has
none, the peak-hours branch leaves the column set unchanged (the tag is
added and dropped again inside the branch), and the modeling feature set
— identical whether or not the branch ran — never contains `_daytype`. -/
theorem c9_daytype_tag (parseDate : Cell → Cell) (t : Table)
    (h : "_daytype" ∉ t.headers) :
    "_daytype" ∉ (clean parseDate t).headers
  ∧ afterPeakHeaders (clean parseDate t).headers = (clean parseDate t).headers
  ∧ "_daytype" ∉ featureHeaders (afterPeakHeaders (clean parseDate t).headers) := by
  have hnot : "_daytype" ∉ (clean parseDate t).headers := by
    rw [clean_headers]
    split
    · split
      · exact h
      · intro hm
        rcases List.mem_append.mp hm with hm | hm
        · exact h hm
        · simp at hm
    · exact h
  have hafter : afterPeakHeaders (clean parseDate t).headers = (clean parseDate t).headers := by
    rw [afterPeakHeaders]
    split
    · rw [setColH, if_neg hnot, List.erase_append_right _ hnot]
      simp
    · rfl
  refine ⟨hnot, hafter, ?_⟩
  rw [hafter]
  intro hm
  exact hnot (List.mem_of_mem_filter hm)

/-- Witness for C9 at a concrete hour-level header list. -/
theorem c9_daytype_tag_witness :
    ("_daytype" ∉ (Table.mk ["hr", "cnt"] []).headers)
  ∧ "_daytype" ∉ (clean id (Table.mk ["hr", "cnt"] [])).headers
  ∧ afterPeakHeaders (clean id (Table.mk ["hr", "cnt"] [])).headers
      = (clean id (Table.mk ["hr", "cnt"] [])).headers
  ∧ "_daytype" ∉ featureHeaders (afterPeakHeaders (clean id (Table.mk ["hr", "cnt"] [])).headers) := by
  have h := c9_daytype_tag id (Table.mk ["hr", "cnt"] []) (by decide)
  exact ⟨by decide, h.1, h.2.1, h.2.2⟩

/-! ## Ordering of the model comparison table -/

/-- C7: the comparison table holds exactly one row per trained model
(Ridge and RandomForest, a permutation of the built result list), its rows
are in ascending order of RMSE, and for any two RMSE values the row with
the lower RMSE comes first. -/
theorem c7_comparison_sorted (ra r2a rf r2f : ℚ) :
    (modelComparison ra r2a rf r2f).Perm (comparisonRows ra r2a rf r2f)
  ∧ (modelComparison ra r2a rf r2f).Pairwise (fun x y => x.rmse ≤ y.rmse)
  ∧ (ra ≤ rf → modelComparison ra r2a rf r2f
      = [⟨"Ridge", ra, r2a⟩, ⟨"RandomForest", rf, r2f⟩])
  ∧ (rf < ra → modelComparison ra r2a rf r2f
      = [⟨"RandomForest", rf, r2f⟩, ⟨"Ridge", ra, r2a⟩]) := by
  have hunf : modelComparison ra r2a rf r2f
      = if ra ≤ rf then [⟨"Ridge", ra, r2a⟩, ⟨"RandomForest", rf, r2f⟩]
        else [⟨"RandomForest", rf, r2f⟩, ⟨"Ridge", ra, r2a⟩] := by
    simp only [modelComparison, comparisonRows, sSort, sIns, rmseLe]
    by_cases h : ra ≤ rf
    · rw [if_pos (decide_eq_true h), if_pos h]
    · rw [if_neg (by simpa using h), if_neg h]
  by_cases h : ra ≤ rf
  · rw [hunf, if_pos h]
    exact ⟨List.Perm.refl _, by simp [List.pairwise_cons, h],
      fun _ => rfl, fun h' => absurd h (not_le.mpr h')⟩
  · rw [hunf, if_neg h]
    refine ⟨List.Perm.swap _ _ _, by simp [List.pairwise_cons, le_of_lt (not_le.mp h)],
      fun h' => absurd h' h, fun _ => rfl⟩

/-- Witness for C7 at RMSE values 1 and 2: the table is a permutation of
the two model rows, sorted, and the (lower-RMSE) Ridge row comes first. -/
theorem c7_comparison_sorted_witness :
    (modelComparison 1 0 2 0).Perm (comparisonRows 1 0 2 0)
  ∧ (modelComparison 1 0 2 0).Pairwise (fun x y => x.rmse ≤ y.rmse)
  ∧ modelComparison 1 0 2 0 = [⟨"Ridge", 1, 0⟩, ⟨"RandomForest", 2, 0⟩] := by
  obtain ⟨h1, h2, h3, _⟩ := c7_comparison_sorted 1 0 2 0
  exact ⟨h1, h2, h3 (by norm_num)⟩

/-! ## Dashboard artifact paths versus pipeline output paths -/

/-- C8 fails on the code: the dashboard reads level-prefixed artifact
paths (for example `outputs/hour_peak_hours.csv`) while the pipeline
writes unprefixed ones (`outputs/peak_hours.csv`), so for both levels
none of the artifact paths the dashboard displays is ever written by the
pipeline. -/
theorem c8_dashboard_path_mismatch :
    ("outputs/hour_peak_hours.csv" ∈ dashboardArtifactPaths "hour")
  ∧ ("outputs/hour_peak_hours.csv" ∉ pipelineOutputFiles "hour")
  ∧ ((dashboardArtifactPaths "hour").all
      (fun p => !((pipelineOutputFiles "hour").contains p)) = true)
  ∧ ((dashboardArtifactPaths "day").all
      (fun p => !((pipelineOutputFiles "day").contains p)) = true) := by
  refine ⟨?_, ?_, ?_, ?_⟩ <;> decide

/-! ## Acquisition: idempotence and error behaviour -/

theorem targetPath_ne_zipPath (rawDir level : String) :
    targetPath rawDir level ≠ zipPath rawDir := by
  unfold targetPath zipPath
  intro h
  have hd := congrArg String.data h
  simp only [String.data_append] at hd
  rw [List.append_assoc] at hd
  have h2 := List.append_cancel_left hd
  rw [targetName] at h2
  split at h2
  · exact absurd h2 (by decide)
  · exact absurd h2 (by decide)

/-- C3: a successful acquisition leaves a world in which a second call is
a pure cache check — it performs no download and no extraction, changes
nothing, and returns the same path; the returned path is always the
deterministic target path; and when archive and CSV are both already
cached, the very first call already does no I/O. -/
theorem c3_idempotent (w : AcqWorld) (rawDir level : String) (r : AcqResult)
    (h : ensure_ucibike_data w rawDir level = .ok r) :
    ensure_ucibike_data r.world rawDir level = .ok ⟨r.world, r.path, 0, 0⟩
  ∧ r.path = targetPath rawDir level
  ∧ (zipPath rawDir ∈ w.files → targetPath rawDir level ∈ w.files →
      r = ⟨w, targetPath rawDir level, 0, 0⟩) := by
  by_cases hz : zipPath rawDir ∈ w.files
  · rw [ensure_ucibike_data, if_pos hz] at h
    by_cases ht : targetPath rawDir level ∈ w.files
    · rw [acqExtract, if_pos ht] at h
      injection h with h'
      subst h'
      refine ⟨?_, rfl, fun _ _ => rfl⟩
      rw [ensure_ucibike_data, if_pos hz, acqExtract, if_pos ht]
    · rw [acqExtract, if_neg ht] at h
      by_cases he : (w.zipEntries.filter (entryMatches level)).isEmpty = true
      · rw [if_pos he] at h
        exact Except.noConfusion h
      · rw [if_neg he] at h
        injection h with h'
        subst h'
        refine ⟨?_, rfl, fun _ htp => absurd htp ht⟩
        rw [ensure_ucibike_data, if_pos (List.mem_cons_of_mem _ hz), acqExtract,
          if_pos (List.mem_cons_self _ _)]
  · by_cases hn : w.netOk
    · rw [ensure_ucibike_data, if_neg hz, if_pos hn] at h
      by_cases ht : targetPath rawDir level ∈ zipPath rawDir :: w.files
      · rw [acqExtract, if_pos ht] at h
        injection h with h'
        subst h'
        refine ⟨?_, rfl, fun hzz _ => absurd hzz hz⟩
        rw [ensure_ucibike_data, if_pos (List.mem_cons_self _ _), acqExtract, if_pos ht]
      · rw [acqExtract, if_neg ht] at h
        by_cases he : (w.zipEntries.filter (entryMatches level)).isEmpty = true
        · rw [if_pos he] at h
          exact Except.noConfusion h
        · rw [if_neg he] at h
          injection h with h'
          subst h'
          refine ⟨?_, rfl, fun hzz _ => absurd hzz hz⟩
          rw [ensure_ucibike_data,
            if_pos (List.mem_cons_of_mem _ (List.mem_cons_self _ _)), acqExtract,
            if_pos (List.mem_cons_self _ _)]
    · rw [ensure_ucibike_data, if_neg hz, if_neg (by simp [hn])] at h
      exact Except.noConfusion h

/-- Witness for C3 at a warm cache: both the archive and the extracted
CSV already exist, the call performs no I/O and returns the target
path. -/
theorem c3_idempotent_witness :
    ensure_ucibike_data
        (AcqWorld.mk ["r/bike_sharing_dataset.zip", "r/hour.csv"] false []) "r" "hour"
      = .ok ⟨AcqWorld.mk ["r/bike_sharing_dataset.zip", "r/hour.csv"] false [],
          "r/hour.csv", 0, 0⟩
  ∧ "r/hour.csv" = targetPath "r" "hour" := by
  have h := c3_idempotent
    (AcqWorld.mk ["r/bike_sharing_dataset.zip", "r/hour.csv"] false []) "r" "hour"
    ⟨AcqWorld.mk ["r/bike_sharing_dataset.zip", "r/hour.csv"] false [],
      "r/hour.csv", 0, 0⟩ (by rfl)
  exact ⟨h.1, h.2.1⟩

/-- C4: acquisition fails with the network error exactly when the archive
must be downloaded and the remote is unreachable or returns a non-success
status, and fails with the corrupt-archive error when the CSV is missing
and no archive entry matches the expected file name; in both cases the
error constructor itself is returned to the caller unmodified. -/
theorem c4_acquisition_errors (w : AcqWorld) (rawDir level : String) :
    (zipPath rawDir ∉ w.files → w.netOk = false →
      ensure_ucibike_data w rawDir level = .error .network)
  ∧ (targetPath rawDir level ∉ w.files →
      (∀ n ∈ w.zipEntries, entryMatches level n = false) →
      (zipPath rawDir ∈ w.files ∨ w.netOk = true) →
      ensure_ucibike_data w rawDir level = .error .corruptArchive) := by
  constructor
  · intro h1 h2
    rw [ensure_ucibike_data, if_neg h1, if_neg (by simp [h2])]
  · intro h1 h2 h3
    have hfe : w.zipEntries.filter (entryMatches level) = [] :=
      List.filter_eq_nil_iff.mpr fun a ha => by simp [h2 a ha]
    by_cases hz : zipPath rawDir ∈ w.files
    · rw [ensure_ucibike_data, if_pos hz, acqExtract, if_neg h1,
        if_pos (by rw [hfe]; rfl)]
    · have hn : w.netOk = true := h3.resolve_left hz
      have hne := targetPath_ne_zipPath rawDir level
      rw [ensure_ucibike_data, if_neg hz, if_pos hn, acqExtract,
        if_neg (by simp [List.mem_cons, hne, h1]),
        if_pos (by rw [show (AcqWorld.mk (zipPath rawDir :: w.files) w.netOk w.zipEntries).zipEntries = w.zipEntries from rfl, hfe]; rfl)]

/-- Witness for C4: an empty cold cache with an unreachable remote yields
the network error; a cached archive containing no matching entry yields
the corrupt-archive error. -/
theorem c4_acquisition_errors_witness :
    ensure_ucibike_data (AcqWorld.mk [] false []) "r" "hour" = .error .network
  ∧ ensure_ucibike_data
      (AcqWorld.mk ["r/bike_sharing_dataset.zip"] true ["abc.txt"]) "r" "hour"
      = .error .corruptArchive := by
  refine ⟨(c4_acquisition_errors (AcqWorld.mk [] false []) "r" "hour").1 (by decide) rfl, ?_⟩
  refine (c4_acquisition_errors
    (AcqWorld.mk ["r/bike_sharing_dataset.zip"] true ["abc.txt"]) "r" "hour").2
    (by decide) ?_ (Or.inr rfl)
  intro n hn
  have : n = "abc.txt" := by simpa using hn
  subst this
  decide

/-! ## Sparse and dense one-hot preprocessing agree -/

theorem flatMap_congr {α β : Type*} {f g : α → List β} (l : List α)
    (h : ∀ a ∈ l, f a = g a) : l.flatMap f = l.flatMap g := by
  induction l with
  | nil => rfl
  | cons x t ih =>
    rw [List.flatMap_cons, List.flatMap_cons, h x (List.mem_cons_self x t),
      ih fun a ha => h a (List.mem_cons_of_mem x ha)]

/-- The dense row denoted by the sparse one-hot encoding is exactly the
dense one-hot encoding. -/
theorem toDense_sparseIdx (cats : List Int) (v : Int) :
    toDense cats.length (sparseIdx cats v) = denseEnc cats v := by
  induction cats with
  | nil => rfl
  | cons c cs ih =>
    rw [toDense, List.length_cons, List.range_succ_eq_map, List.map_cons, List.map_map]
    rw [sparseIdx, denseEnc]
    congr 1
    · by_cases hvc : v = c <;> simp [hvc]
    · rw [← ih, toDense]
      apply List.map_congr_left
      intro i _
      simp only [Function.comp_apply]
      by_cases hvc : v = c <;> by_cases hi : i ∈ sparseIdx cs v <;> simp [hvc, hi]

theorem sparseCatRow_eq_denseCatRow (s : MLSplit) (vals : List Int) :
    sparseCatRow s vals = denseCatRow s vals := by
  rw [sparseCatRow, denseCatRow]
  exact flatMap_congr _ fun p _ => toDense_sparseIdx p.1 p.2

theorem sparseFeatures_eq_denseFeatures (s : MLSplit) (cvals : List Int) (nvals : List ℚ) :
    sparseFeatures s cvals nvals = denseFeatures s cvals nvals := by
  rw [sparseFeatures, denseFeatures, sparseCatRow_eq_denseCatRow]

theorem designSparseTrain_eq (s : MLSplit) : designSparseTrain s = designDenseTrain s := by
  rw [designSparseTrain, designDenseTrain]
  simp only [sparseFeatures_eq_denseFeatures]

theorem designSparseTest_eq (s : MLSplit) : designSparseTest s = designDenseTest s := by
  rw [designSparseTest, designDenseTest]
  simp only [sparseFeatures_eq_denseFeatures]

/-- C10: the metrics-report Ridge fit (sparse one-hot preprocessing) and
the comparison-table Ridge fit (dense one-hot preprocessing) consume
equal train and test design matrices — built from the same training rows
with the same categories, scaler statistics and `alpha` — and therefore
produce equal test MSE, equal RMSE and equal R². -/
theorem c10_ridge_paths_agree (s : MLSplit) :
    designSparseTrain s = designDenseTrain s
  ∧ designSparseTest s = designDenseTest s
  ∧ metricsSparse s = metricsDense s
  ∧ Real.sqrt ((metricsSparse s).1 : ℝ) = Real.sqrt ((metricsDense s).1 : ℝ) := by
  have h1 := designSparseTrain_eq s
  have h2 := designSparseTest_eq s
  have h3 : metricsSparse s = metricsDense s := by
    rw [metricsSparse, metricsDense, h1, h2]
  exact ⟨h1, h2, h3, by rw [h3]⟩
